import Mathlib

/-!
A shallow embedding of `src/shared/edit-util.c` (the edit-and-install
workflow: staging writer, editor launcher, marker trimmer, installer and
file-set registry), together with theorems settling the specification
claims about it.

File contents are modelled as `List Char` (C strings without embedded NUL
bytes); the filesystem is a partial map from paths to contents; process
execution (`execvp`) and rename success are injected as oracles.
-/

namespace EditUtil

/-- A C string: a NUL-free sequence of characters. -/
abbrev Str := List Char

/-- The WHITESPACE set of string-util.h: space, tab, newline, carriage return. -/
def isWs (c : Char) : Bool :=
  c = ' ' || c = '\t' || c = '\n' || c = '\r'

/-- Models systemd's skip_leading_chars(s, WHITESPACE): advance past leading whitespace. -/
def skipLeadingWs (s : Str) : Str := s.dropWhile isWs

/-- Models systemd's delete_trailing_chars(s, WHITESPACE): drop trailing whitespace
(in C this writes a NUL terminator in place right after the last non-whitespace byte). -/
def deleteTrailingWs (s : Str) : Str := (s.reverse.dropWhile isWs).reverse

/-- Models systemd's strstrip: delete trailing whitespace, then skip leading whitespace. -/
def strstrip (s : Str) : Str := skipLeadingWs (deleteTrailingWs s)

/-- Index of the first occurrence of `pat` in `hay`, i.e. the offset computed by
strstr(hay, pat) (none when strstr returns NULL). strstr with an empty pattern
returns `hay` itself, hence `some 0`. -/
def firstOccIdx : Str → Str → Option Nat
  | [], pat => if pat.isPrefixOf ([] : Str) then some 0 else none
  | c :: t, pat =>
    if pat.isPrefixOf (c :: t) then some 0
    else (firstOccIdx t pat).map (· + 1)

/-- Whether `pat` occurs as a contiguous substring of `s` (strstr finds it). -/
def occursInB (pat s : Str) : Bool := (firstOccIdx s pat).isSome

/-- Models systemd's strreplace(text, old, new): replace every occurrence of
`old` by `new`, scanning left to right. -/
def strreplace (s old new : Str) : Str :=
  match s with
  | [] => []
  | c :: t =>
    if old ≠ [] ∧ old.isPrefixOf (c :: t) then new ++ strreplace ((c :: t).drop old.length) old new
    else c :: strreplace t old new
termination_by s.length
decreasing_by
  · simp only [List.length_drop]
    have : old.length > 0 := List.length_pos.mpr (by tauto)
    simp only [List.length_cons]
    omega
  · simp [Nat.lt_succ_self]

/-- Helper for strv_split on WHITESPACE: accumulates the current token (reversed). -/
def splitWsGo : Str → Str → List Str
  | [], acc => if acc = [] then [] else [acc.reverse]
  | c :: t, acc =>
    if isWs c then (if acc = [] then splitWsGo t [] else acc.reverse :: splitWsGo t [])
    else splitWsGo t (c :: acc)

/-- Models strv_split(s, WHITESPACE): the maximal whitespace-free tokens of `s`,
in order (empty tokens are skipped). -/
def strv_split_ws (s : Str) : List Str := splitWsGo s []

/-- Decimal rendering of an unsigned integer, as printf %u produces. -/
def natToStr (n : Nat) : Str := Nat.toDigits 10 n

/-- Models endswith(s, newline): whether the last character of `s` is a newline. -/
def endswithNl (s : Str) : Bool := s.getLast? = some '\n'

/-! ## File-set registry (EditFileContext / EditFile) -/

/-- One edit target, mirroring struct EditFile.  `temp` is two-level: `none` means
the temp filename is unset (`i->temp` NULL); `some none` means the filename was
assigned but no file was created on disk (neither the copy branch nor the
templating branch ran); `some (some c)` means the temp file exists with content
`c`.  `line` is zero-initialized by edit_files_add. -/
structure EditFile where
  path : Str
  original_path : Option Str
  comment_paths : Option (List Str)
  temp : Option (Option Str)
  line : Nat
deriving DecidableEq

/-- Models edit_files_contains: linear scan for an entry whose `path` is
byte-for-byte equal (streq) to `path`. -/
def edit_files_contains (files : List EditFile) (path : Str) : Bool :=
  files.any fun i => i.path = path

/-- Models edit_files_add: returns the updated entry array and the C return
value (0 = already present and no mutation, 1 = appended).  A fresh entry has
NULL temp and zero line. -/
def edit_files_add (files : List EditFile) (path : Str) (original_path : Option Str)
    (comment_paths : Option (List Str)) : List EditFile × Nat :=
  if edit_files_contains files path then (files, 0)
  else (files ++ [{ path := path, original_path := original_path,
                    comment_paths := comment_paths, temp := none, line := 0 }], 1)

/-! ## Staging writer (create_edit_temp_file) -/

/-- The header line printed at the top of a templated staging file. -/
def headerFor (target_path : Str) : Str := "### Editing ".toList ++ target_path

/-- The templated document written by the fprintf in create_edit_temp_file:
header line, start marker line, blank line, current target contents with a
forced trailing newline, blank line, end marker line.  `target_contents` is
`none` when read_full_file failed with ENOENT (strempty renders it as ""). -/
def templatedDoc (target_path : Str) (target_contents : Option Str) (ms me : Str) : Str :=
  headerFor target_path ++ '\n' :: ms ++ '\n' :: '\n' ::
    (target_contents.getD [] ++
      (match target_contents with
       | some c => if endswithNl c then [] else ['\n']
       | none => ['\n']) ++
      '\n' :: me ++ ['\n'])

/-- One appended reference block for a comment source: a blank line, a header
line naming the source, and (for non-empty contents) the stripped contents with
every newline re-prefixed by "# ". -/
def commentBlock (p : Str) (contents : Str) : Str :=
  "\n\n### ".toList ++ p ++
    (if contents = [] then []
     else "\n# ".toList ++ strreplace (strstrip contents) ['\n'] "\n# ".toList)

/-- Models path_equal for the self-reference skip in the comment loop.  For the
properties verified here only exact equality matters; path_equal additionally
normalizes redundant separators, which no claim depends on. -/
def path_equal (a b : Str) : Bool := a = b

/-- The STRV_FOREACH loop over comment_paths: append a commentBlock for every
source other than the target itself; a failed read of any source (absent file)
aborts the whole staging operation. -/
def appendBlocks (fs : Str → Option Str) (target : Str) : List Str → Str → Except Unit Str
  | [], acc => .ok acc
  | p :: ps, acc =>
    if path_equal p target then appendBlocks fs target ps acc
    else
      match fs p with
      | none => .error ()
      | some c => appendBlocks fs target ps (acc ++ commentBlock p c)

/-- Result of create_edit_temp_file: the content of the staging file (none when
no file was created on disk) and the resolved cursor line. -/
structure StagedResult where
  tempContents : Option Str
  line : Nat
deriving DecidableEq

/-- Models create_edit_temp_file.  `line` starts at 1.  If original_path is set,
the temp file is seeded with a copy of it (an absent original yields an empty
file via touch).  If comment_paths is set (non-NULL, even if empty) the
templating branch runs: it truncates the temp file with the templated document,
sets line to 4, and appends one reference block per comment source; this branch
requires both markers (the assert contract), modelled as an error otherwise. -/
def create_edit_temp_file (fs : Str → Option Str) (target_path : Str)
    (original_path : Option Str) (comment_paths : Option (List Str))
    (marker_start marker_end : Option Str) : Except Unit StagedResult :=
  let afterCopy : Option Str :=
    match original_path with
    | some op => some ((fs op).getD [])
    | none => none
  match comment_paths with
  | none => .ok ⟨afterCopy, 1⟩
  | some ps =>
    match marker_start, marker_end with
    | some ms, some me =>
      match appendBlocks fs target_path ps (templatedDoc target_path (fs target_path) ms me) with
      | .error e => .error e
      | .ok doc => .ok ⟨some doc, 4⟩
    | _, _ => .error ()

/-! ## Marker trimmer (trim_edit_markers) -/

/-- Offset at which the content region starts: one past the first occurrence of
the start marker, or the start of the file when the marker is absent. -/
def trimStartIdx (old ms : Str) : Nat :=
  match firstOccIdx old ms with
  | some i => i + ms.length
  | none => 0

/-- The content region extracted by trim_edit_markers: from trimStartIdx up to
(but excluding) the first occurrence of the end marker, or to end of file when
the end marker is absent. -/
def trimRegion (old ms me : Str) : Str :=
  let r1 := old.drop (trimStartIdx old ms)
  match firstOccIdx r1 me with
  | some j => r1.take j
  | none => r1

/-- Outcome of trim_edit_markers: the C return value (0 = region empty, skip
install; 1 = good), whether write_string_file was invoked, and the content of
the temp file on disk after the call. -/
structure TrimOut where
  ret : Nat
  wrote : Bool
  fileContents : Str
deriving DecidableEq

/-- Models trim_edit_markers with both markers present.  Faithful to the C
in-place semantics: contents_end[0] = 0 truncates the buffer at the end marker
and strstrip NUL-truncates trailing whitespace in place, so the streq at the end
compares new_contents with the MUTATED buffer (the unmodified prefix before the
region followed by the trailing-stripped region), not with the bytes originally
read from disk. -/
def trim_edit_markers (old ms me : Str) : TrimOut :=
  let start := trimStartIdx old ms
  let r2 := trimRegion old ms me
  let c := strstrip r2
  if c = [] then ⟨0, false, old⟩
  else
    let newContents := c ++ ['\n']
    let bufferAsCString := old.take start ++ deleteTrailingWs r2
    if bufferAsCString = newContents then ⟨1, false, old⟩
    else ⟨1, true, newContents⟩

/-- trim_edit_markers as the installer calls it, with the markers as they sit in
the context (possibly NULL).  The function asserts !marker_start == !marker_end
and then unconditionally calls strstr(old_contents, marker_start): with both
markers NULL the call dereferences NULL and has no defined result, modelled as
`none`; a mismatched pair trips the assert, also `none`. -/
def trim_edit_markers_checked (old : Str) (marker_start marker_end : Option Str) :
    Option TrimOut :=
  match marker_start, marker_end with
  | some ms, some me => some (trim_edit_markers old ms me)
  | _, _ => none

/-! ## Editor launcher (run_editor_child) -/

/-- Result of one execvp attempt, as the caller can observe it: the exec
succeeded (the process image was replaced), failed with ENOENT, or failed with
any other errno. -/
inductive ExecOutcome
  | ok
  | enoent
  | otherFailure
deriving DecidableEq

/-- The three editor override environment variables.  `none` means unset;
`some []` means set to the empty string (getenv distinguishes the two). -/
structure EditorEnv where
  systemd_editor : Option Str
  editor : Option Str
  visual : Option Str
deriving DecidableEq

/-- The getenv chain: SYSTEMD_EDITOR, else EDITOR, else VISUAL.  Each `if
(!editor)` tests for NULL only, so a set-but-empty variable wins the chain. -/
def resolveEditor (env : EditorEnv) : Option Str :=
  match env.systemd_editor with
  | some v => some v
  | none =>
    match env.editor with
    | some v => some v
    | none => env.visual

/-- The per-file data run_editor_child reads from the context: the temp filename
and the cursor line. -/
structure LFile where
  temp : Str
  line : Nat
deriving DecidableEq

/-- The +LINE argument: inserted only when exactly one file is edited and its
cursor line is greater than 1. -/
def cursorArgs (files : List LFile) : List Str :=
  match files with
  | [f] => if f.line > 1 then ['+' :: natToStr f.line] else []
  | _ => []

/-- The argv run_editor_child assembles before any exec attempt: the
whitespace-split tokens of the resolved editor (when non-empty), then the
optional +LINE argument, then every temp path in registry order. -/
def buildArgs (env : EditorEnv) (files : List LFile) : List Str :=
  let editorArgs := match resolveEditor env with
    | some v => if v.isEmpty then [] else strv_split_ws v
    | none => []
  editorArgs ++ cursorArgs files ++ files.map (·.temp)

/-- The fixed list of well-known editors tried when no usable override ran. -/
def fallbackNames : List Str := ["editor".toList, "nano".toList, "vim".toList, "vi".toList]

/-- What run_editor_child ends in: a successful exec with the given argv, a
fatal non-ENOENT exec failure on a fallback name, the final "no editor
available" error, or an undefined execvp call (argv[0] NULL). -/
inductive ChildRes
  | execd (argv : List Str)
  | fatalExecFailure (name : Str)
  | fatalNoEditor
  | undefinedExec
deriving DecidableEq

/-- The FOREACH_STRING fallback loop: the first iteration prepends the candidate
name to argv, later ones replace argv[0], so every attempt execs
name :: tailArgs.  ENOENT advances to the next name, any other failure is
fatal, and an exhausted list is fatal with the "no editor available" message. -/
def tryFallbacks (exec : Str → ExecOutcome) (tailArgs : List Str) : List Str → ChildRes
  | [] => .fatalNoEditor
  | name :: rest =>
    match exec name with
    | .ok => .execd (name :: tailArgs)
    | .enoent => tryFallbacks exec tailArgs rest
    | .otherFailure => .fatalExecFailure name

/-- Models run_editor_child.  When the resolved editor is non-empty, execvp is
attempted on its first token; note that on ANY failure of that exec the code
simply falls through into the fallback loop (there is no errno check and no
early return at that point), with the override's tokens still sitting in argv. -/
def run_editor_child (exec : Str → ExecOutcome) (env : EditorEnv) (files : List LFile) :
    ChildRes :=
  let args := buildArgs env files
  let editorUsable := match resolveEditor env with
    | some v => !v.isEmpty
    | none => false
  if editorUsable then
    match args with
    | [] => .undefinedExec
    | a0 :: _ =>
      match exec a0 with
      | .ok => .execd args
      | _ => tryFallbacks exec args fallbackNames
  else tryFallbacks exec args fallbackNames

/-! ## Installer (do_edit_files_and_install) -/

/-- How the install loop of do_edit_files_and_install ends: clean completion,
an undefined trim call (NULL markers), a failed read of a temp file, or a
failed rename (which the code returns on immediately). -/
inductive LoopRes
  | ok
  | undef
  | readFailure
  | renameFailure (dst : Str)
deriving DecidableEq

/-- The staging loop of do_edit_files_and_install (first FOREACH_ARRAY): every
entry whose temp filename is still unset is staged via create_edit_temp_file,
and the whole run aborts on the first staging failure.  Entries already holding
a temp are passed through untouched. -/
def stageFiles (fs : Str → Option Str) (ms me : Option Str) :
    List EditFile → Except Unit (List EditFile)
  | [] => .ok []
  | f :: rest =>
    if f.temp.isSome then
      match stageFiles fs ms me rest with
      | .error e => .error e
      | .ok rest' => .ok (f :: rest')
    else
      match create_edit_temp_file fs f.path f.original_path f.comment_paths ms me with
      | .error e => .error e
      | .ok st =>
        match stageFiles fs ms me rest with
        | .error e => .error e
        | .ok rest' => .ok ({ f with temp := some st.tempContents, line := st.line } :: rest')

/-- Point update of the filesystem map, as rename(temp, path) produces. -/
def updateFs (fs : Str → Option Str) (p : Str) (c : Str) : Str → Option Str :=
  fun q => if q = p then some c else fs q

/-- The install loop of do_edit_files_and_install (second FOREACH_ARRAY): for
every entry, trim the temp file; a zero return skips the entry (continue); a
positive return renames the trimmed temp file onto the target path, and a
rename failure RETURNS immediately with the error, leaving files installed so
far in place and later entries unprocessed.  `renameOk` injects per-target
rename failures. -/
def installFiles (renameOk : Str → Bool) (ms me : Option Str) :
    List EditFile → (Str → Option Str) → (Str → Option Str) × LoopRes
  | [], fs => (fs, .ok)
  | f :: rest, fs =>
    match f.temp with
    | some (some tc) =>
      match trim_edit_markers_checked tc ms me with
      | none => (fs, .undef)
      | some t =>
        if t.ret = 0 then installFiles renameOk ms me rest fs
        else if renameOk f.path then
          installFiles renameOk ms me rest (updateFs fs f.path t.fileContents)
        else (fs, .renameFailure f.path)
    | _ => (fs, .readFailure)

/-- Overall result of do_edit_files_and_install. -/
inductive RunRes
  | noFiles
  | stageFailed
  | installUndef
  | installReadFailure
  | installRenameFailure (dst : Str)
  | ok
deriving DecidableEq

/-- Models do_edit_files_and_install end to end: fail fast on an empty set,
stage every entry lacking a temp file, let the external editor (the arbitrary
function `editFn`, standing for the child process run_editor waits on) rewrite
the staged files, then run the install loop. -/
def do_edit_files_and_install (renameOk : Str → Bool)
    (editFn : List EditFile → List EditFile) (ms me : Option Str)
    (files : List EditFile) (fs : Str → Option Str) : (Str → Option Str) × RunRes :=
  if files.isEmpty then (fs, .noFiles)
  else
    match stageFiles fs ms me files with
    | .error _ => (fs, .stageFailed)
    | .ok staged =>
      match installFiles renameOk ms me (editFn staged) fs with
      | (fs', .ok) => (fs', .ok)
      | (fs', .undef) => (fs', .installUndef)
      | (fs', .readFailure) => (fs', .installReadFailure)
      | (fs', .renameFailure d) => (fs', .installRenameFailure d)

/-! ## Supporting lemmas -/

theorem firstOccIdx_pos {pat s : Str} (h : pat.isPrefixOf s) : firstOccIdx s pat = some 0 := by
  cases s <;> simp [firstOccIdx, h]

theorem firstOccIdx_eq_some_intro {pat : Str} {s : Str} {i : Nat}
    (hpre : pat <+: s.drop i) (hmin : ∀ j, j < i → ¬ pat <+: s.drop j) :
    firstOccIdx s pat = some i := by
  induction i generalizing s with
  | zero =>
    rw [List.drop_zero] at hpre
    exact firstOccIdx_pos (List.isPrefixOf_iff_prefix.mpr hpre)
  | succ i ih =>
    have h0 : ¬ pat <+: s := by
      have := hmin 0 (Nat.succ_pos i)
      rwa [List.drop_zero] at this
    cases s with
    | nil =>
      rw [List.drop_nil] at hpre
      exact absurd (List.prefix_nil.mp hpre ▸ List.nil_prefix) h0
    | cons c t =>
      have hb : pat.isPrefixOf (c :: t) = false := by
        by_contra hcon
        exact h0 (List.isPrefixOf_iff_prefix.mp (Bool.not_eq_false _ ▸ hcon))
      rw [firstOccIdx, hb, if_neg (by simp)]
      have hpre' : pat <+: t.drop i := by rwa [List.drop_succ_cons] at hpre
      have hmin' : ∀ j, j < i → ¬ pat <+: t.drop j := by
        intro j hj
        have := hmin (j + 1) (by omega)
        rwa [List.drop_succ_cons] at this
      rw [ih hpre' hmin']
      rfl

theorem firstOccIdx_none_not_pref {pat : Str} :
    ∀ {s : Str}, firstOccIdx s pat = none → ∀ j, ¬ pat <+: s.drop j := by
  intro s
  induction s with
  | nil =>
    intro h j hpre
    rw [List.drop_nil] at hpre
    have : pat = [] := List.prefix_nil.mp hpre
    subst this
    simp [firstOccIdx] at h
  | cons c t ih =>
    intro h j hpre
    rw [firstOccIdx] at h
    by_cases hb : pat.isPrefixOf (c :: t)
    · simp [hb] at h
    · rw [if_neg hb] at h
      have ht : firstOccIdx t pat = none := by
        cases hval : firstOccIdx t pat with
        | none => rfl
        | some k => rw [hval] at h; simp at h
      cases j with
      | zero =>
        rw [List.drop_zero] at hpre
        exact hb (List.isPrefixOf_iff_prefix.mpr hpre)
      | succ j =>
        rw [List.drop_succ_cons] at hpre
        exact ih ht j hpre

theorem occursInB_false_not_pref {pat s : Str} (h : occursInB pat s = false) (j : Nat) :
    ¬ pat <+: s.drop j := by
  have hn : firstOccIdx s pat = none := by
    unfold occursInB at h
    cases hval : firstOccIdx s pat with
    | none => rfl
    | some k => rw [hval] at h; simp at h
  exact firstOccIdx_none_not_pref hn j

theorem firstOccIdx_at_marker {a pat w : Str}
    (h : ∀ j, j < a.length → ¬ pat <+: ((a ++ (pat ++ w)).drop j)) :
    firstOccIdx (a ++ (pat ++ w)) pat = some a.length := by
  apply firstOccIdx_eq_some_intro
  · rw [List.drop_left]
    exact List.prefix_append pat w
  · exact h

theorem pref_window_getElem {pat s : Str} {i k : Nat} (h : pat <+: s.drop i)
    (hk : k < pat.length) : s[i + k]? = pat[k]? := by
  have h1 : pat = (s.drop i).take pat.length := List.prefix_iff_eq_take.mp h
  have h2 : pat[k]? = (s.drop i)[k]? := by
    conv_lhs => rw [h1]
    exact List.getElem?_take_of_lt hk
  rw [h2, List.getElem?_drop]

theorem nl_in_window {pat s : Str} {i j : Nat} (h : pat <+: s.drop i)
    (hnl : '\n' ∉ pat) (hij : i ≤ j) (hj : j < i + pat.length)
    (hs : s[j]? = some '\n') : False := by
  have hk : j - i < pat.length := by omega
  have hw := pref_window_getElem h hk
  rw [show i + (j - i) = j by omega, hs] at hw
  exact hnl (List.getElem?_mem hw.symm)

theorem pref_of_pref_append {pat x w : Str} (h : pat <+: x ++ w)
    (hlen : pat.length ≤ x.length) : pat <+: x := by
  have h1 : pat = (x ++ w).take pat.length := List.prefix_iff_eq_take.mp h
  rw [List.take_append_of_le_length hlen] at h1
  exact h1 ▸ List.take_prefix _ _

theorem pref_drop_sub {pat u v : Str} {j : Nat} (h : pat <+: (u ++ v).drop j)
    (hju : u.length ≤ j) : pat <+: v.drop (j - u.length) := by
  rw [show j = u.length + (j - u.length) by omega, List.drop_append] at h
  exact h

theorem pref_interior {pat u v w : Str} {j : Nat} (h : pat <+: (u ++ (v ++ w)).drop j)
    (hju : u.length ≤ j) (hjv : j + pat.length ≤ u.length + v.length) :
    pat <+: v.drop (j - u.length) := by
  have h1 : pat <+: (v ++ w).drop (j - u.length) := pref_drop_sub h hju
  rw [List.drop_append_of_le_length (by omega)] at h1
  apply pref_of_pref_append h1
  rw [List.length_drop]
  omega

theorem noEarly_after_line {hl pat w : Str} (hne : pat ≠ []) (hnl : '\n' ∉ pat)
    (hocc : occursInB pat hl = false) :
    ∀ j, j < (hl ++ ['\n']).length → ¬ pat <+: (((hl ++ ['\n']) ++ (pat ++ w)).drop j) := by
  intro j hj hpre
  have hplen : 0 < pat.length := List.length_pos.mpr hne
  have hjlen : j < hl.length + 1 := by simpa using hj
  by_cases hcase : j + pat.length ≤ hl.length
  · have hs : (hl ++ ['\n']) ++ (pat ++ w) = hl ++ (['\n'] ++ (pat ++ w)) := by
      simp [List.append_assoc]
    rw [hs] at hpre
    rw [List.drop_append_of_le_length (by omega)] at hpre
    have h1 : pat <+: hl.drop j := by
      apply pref_of_pref_append hpre
      rw [List.length_drop]; omega
    exact occursInB_false_not_pref hocc j h1
  · have hsl : ((hl ++ ['\n']) ++ (pat ++ w))[hl.length]? = some '\n' := by
      rw [List.getElem?_append_left (by simp), List.getElem?_append_right (Nat.le_refl _)]
      simp
    exact nl_in_window hpre hnl (by omega) (by omega) hsl

theorem noEarly_region {C pat w : Str} (hne : pat ≠ []) (hnl : '\n' ∉ pat)
    (hocc : occursInB pat C = false) :
    ∀ j, j < ('\n' :: '\n' :: (C ++ ['\n', '\n'])).length →
      ¬ pat <+: ((('\n' :: '\n' :: (C ++ ['\n', '\n'])) ++ (pat ++ w)).drop j) := by
  intro j hj hpre
  have hplen : 0 < pat.length := List.length_pos.mpr hne
  have hjlen : j < C.length + 4 := by
    have : ('\n' :: '\n' :: (C ++ ['\n', '\n'])).length = C.length + 4 := by simp
    omega
  have hshape : ('\n' :: '\n' :: (C ++ ['\n', '\n'])) ++ (pat ++ w)
      = (['\n', '\n'] ++ C) ++ (['\n', '\n'] ++ (pat ++ w)) := by
    simp [List.append_assoc]
  have h0 : (('\n' :: '\n' :: (C ++ ['\n', '\n'])) ++ (pat ++ w))[0]? = some '\n' := by simp
  have h1 : (('\n' :: '\n' :: (C ++ ['\n', '\n'])) ++ (pat ++ w))[1]? = some '\n' := by simp
  have h2 : (('\n' :: '\n' :: (C ++ ['\n', '\n'])) ++ (pat ++ w))[C.length + 2]? = some '\n' := by
    rw [hshape, List.getElem?_append_right (by simp)]
    simp
  have h3 : (('\n' :: '\n' :: (C ++ ['\n', '\n'])) ++ (pat ++ w))[C.length + 3]? = some '\n' := by
    rw [hshape, List.getElem?_append_right (by simp)]
    have : C.length + 3 - (['\n', '\n'] ++ C).length = 1 := by simp
    rw [this]
    simp
  rcases Nat.lt_or_ge j 2 with hj2 | hj2
  · interval_cases j
    · exact nl_in_window hpre hnl (Nat.le_refl 0) (by omega) h0
    · exact nl_in_window hpre hnl (by omega) (by omega) h1
  · by_cases hin : j + pat.length ≤ C.length + 2
    · have hpre2 : pat <+: ((['\n', '\n'] : Str) ++ (C ++ (['\n', '\n'] ++ (pat ++ w)))).drop j := by
        rw [← List.append_assoc]
        rw [← hshape]
        exact hpre
      have hint := pref_interior hpre2 (by simp; omega) (by simp; omega)
      exact occursInB_false_not_pref hocc (j - (['\n', '\n'] : Str).length) hint
    · by_cases hend : j ≤ C.length + 2
      · exact nl_in_window hpre hnl hend (by omega) h2
      · exact nl_in_window hpre hnl (by omega) (by omega) h3

theorem strstrip_fix_parts {C : Str} (h : strstrip C = C) :
    deleteTrailingWs C = C ∧ skipLeadingWs C = C := by
  have hd : deleteTrailingWs C = C := by
    have hlen1 : (skipLeadingWs (deleteTrailingWs C)).length ≤ (deleteTrailingWs C).length :=
      (List.dropWhile_sublist _).length_le
    have hlen2 : (deleteTrailingWs C).length ≤ C.length := by
      have := (List.dropWhile_sublist (l := C.reverse) isWs).length_le
      simpa [deleteTrailingWs] using this
    have hlen3 : (strstrip C).length = C.length := by rw [h]
    have hpref : deleteTrailingWs C <+: C := by
      have hsuf : C.reverse.dropWhile isWs <:+ C.reverse := List.dropWhile_suffix _
      have := List.reverse_prefix.mpr hsuf
      simpa [deleteTrailingWs] using this
    exact hpref.eq_of_length (by unfold strstrip at hlen3; omega)
  refine ⟨hd, ?_⟩
  have : strstrip C = skipLeadingWs C := by rw [strstrip, hd]
  rw [← this, h]

theorem head_not_ws_of_skip_fix {C : Str} (h : skipLeadingWs C = C) (hne : C ≠ []) :
    ∃ c t, C = c :: t ∧ isWs c = false := by
  cases C with
  | nil => exact absurd rfl hne
  | cons c t =>
    refine ⟨c, t, rfl, ?_⟩
    by_contra hcon
    have hws : isWs c = true := by
      cases hval : isWs c with
      | false => exact absurd hval hcon
      | true => rfl
    have := h
    rw [skipLeadingWs, List.dropWhile_cons_of_pos hws] at this
    have hle := (List.dropWhile_sublist (l := t) isWs).length_le
    have : (c :: t).length ≤ t.length := by rw [← this]; exact hle
    simp at this

theorem last_not_ws_of_delete_fix {C : Str} (h : deleteTrailingWs C = C) (hne : C ≠ []) :
    ∃ c t, C.reverse = c :: t ∧ isWs c = false := by
  have hrev : skipLeadingWs C.reverse = C.reverse := by
    have := congrArg List.reverse h
    rwa [deleteTrailingWs, List.reverse_reverse] at this
  have hrne : C.reverse ≠ [] := by simpa using hne
  exact head_not_ws_of_skip_fix hrev hrne

theorem deleteTrailingWs_pad {C : Str} (hfix : deleteTrailingWs C = C) (hne : C ≠ []) :
    deleteTrailingWs ('\n' :: '\n' :: (C ++ ['\n', '\n'])) = '\n' :: '\n' :: C := by
  obtain ⟨c, t, hrev, hcws⟩ := last_not_ws_of_delete_fix hfix hne
  unfold deleteTrailingWs
  have h1 : ('\n' :: '\n' :: (C ++ ['\n', '\n'])).reverse
      = '\n' :: '\n' :: (C.reverse ++ ['\n', '\n']) := by
    simp
  rw [h1, List.dropWhile_cons_of_pos (by decide), List.dropWhile_cons_of_pos (by decide),
    hrev, List.cons_append, List.dropWhile_cons_of_neg (by simp [hcws]),
    ← List.cons_append, ← hrev]
  simp

theorem strstrip_pad {C : Str} (hstrip : strstrip C = C) (hne : C ≠ []) :
    strstrip ('\n' :: '\n' :: (C ++ ['\n', '\n'])) = C := by
  obtain ⟨hd, hs⟩ := strstrip_fix_parts hstrip
  rw [strstrip, deleteTrailingWs_pad hd hne]
  show skipLeadingWs _ = C
  rw [skipLeadingWs, List.dropWhile_cons_of_pos (by decide),
    List.dropWhile_cons_of_pos (by decide)]
  exact hs

theorem endswithNl_false_of_strip {C : Str} (hstrip : strstrip C = C) (hne : C ≠ []) :
    endswithNl C = false := by
  obtain ⟨hd, _⟩ := strstrip_fix_parts hstrip
  obtain ⟨c, t, hrev, hcws⟩ := last_not_ws_of_delete_fix hd hne
  have hlast : C.getLast? = some c := by
    rw [List.getLast?_eq_head?_reverse, hrev]
    rfl
  have hcne : c ≠ '\n' := by
    intro hcon
    subst hcon
    simp [isWs] at hcws
  simp [endswithNl, hlast, hcne]

theorem templatedDoc_shape {tp C ms me : Str} (hstrip : strstrip C = C) (hne : C ≠ []) :
    templatedDoc tp (some C) ms me
      = (headerFor tp ++ ['\n'])
        ++ (ms ++ (('\n' :: '\n' :: (C ++ ['\n', '\n'])) ++ (me ++ ['\n']))) := by
  rw [templatedDoc]
  simp only [Option.getD_some, endswithNl_false_of_strip hstrip hne, Bool.false_eq_true,
    if_false]
  simp [List.append_assoc]

theorem trim_templated {tp C ms me B : Str}
    (hCne : C ≠ []) (hCstrip : strstrip C = C)
    (hmsne : ms ≠ []) (hmene : me ≠ [])
    (hmsnl : '\n' ∉ ms) (hmenl : '\n' ∉ me)
    (hmshdr : occursInB ms (headerFor tp) = false)
    (hmeC : occursInB me C = false) :
    trim_edit_markers (templatedDoc tp (some C) ms me ++ B) ms me
      = ⟨1, true, C ++ ['\n']⟩ := by
  set hf := headerFor tp with hhf
  set pad := ('\n' :: '\n' :: (C ++ ['\n', '\n']) : Str) with hpad
  have hdoc : templatedDoc tp (some C) ms me ++ B
      = (hf ++ ['\n']) ++ (ms ++ (pad ++ (me ++ ('\n' :: B)))) := by
    rw [templatedDoc_shape hCstrip hCne]
    simp [hpad, List.append_assoc]
  -- the start marker is found right after the header line
  have hms : firstOccIdx ((hf ++ ['\n']) ++ (ms ++ (pad ++ (me ++ ('\n' :: B))))) ms
      = some (hf ++ ['\n']).length :=
    firstOccIdx_at_marker (noEarly_after_line hmsne hmsnl hmshdr)
  have hstart : trimStartIdx (templatedDoc tp (some C) ms me ++ B) ms
      = (hf ++ ['\n']).length + ms.length := by
    rw [hdoc, trimStartIdx, hms]
  -- dropping to the content start leaves pad ++ me ++ newline ++ blocks
  have hdrop : (templatedDoc tp (some C) ms me ++ B).drop
      ((hf ++ ['\n']).length + ms.length) = pad ++ (me ++ ('\n' :: B)) := by
    rw [hdoc, ← List.append_assoc]
    apply List.drop_left'
    simp
    omega
  -- the end marker is found right after pad
  have hme : firstOccIdx (pad ++ (me ++ ('\n' :: B))) me = some pad.length :=
    firstOccIdx_at_marker (noEarly_region hmene hmenl hmeC)
  have hregion : trimRegion (templatedDoc tp (some C) ms me ++ B) ms me = pad := by
    rw [trimRegion, hstart, hdrop, hme]
    show List.take pad.length (pad ++ (me ++ '\n' :: B)) = pad
    exact List.take_left pad _
  have hstrip2 : strstrip pad = C := strstrip_pad hCstrip hCne
  have hdel : deleteTrailingWs pad = '\n' :: '\n' :: C :=
    deleteTrailingWs_pad (strstrip_fix_parts hCstrip).1 hCne
  rw [trim_edit_markers, hregion, hstart, hstrip2, hdel]
  rw [if_neg hCne]
  have hbufne : (templatedDoc tp (some C) ms me ++ B).take ((hf ++ ['\n']).length + ms.length)
      ++ '\n' :: '\n' :: C ≠ C ++ ['\n'] := by
    intro hcon
    have hlen := congrArg List.length hcon
    have hmslen : 0 < ms.length := List.length_pos.mpr hmsne
    have htklen : ((templatedDoc tp (some C) ms me ++ B).take
        ((hf ++ ['\n']).length + ms.length)).length = (hf ++ ['\n']).length + ms.length := by
      rw [List.length_take]
      rw [hdoc]
      simp
      omega
    simp [htklen] at hlen
    omega
  rw [if_neg hbufne]

theorem appendBlocks_extends {fs : Str → Option Str} {target : Str} :
    ∀ (ps : List Str) (acc d : Str), appendBlocks fs target ps acc = .ok d →
      ∃ B, d = acc ++ B := by
  intro ps
  induction ps with
  | nil =>
    intro acc d h
    rw [appendBlocks] at h
    injection h with h2
    exact ⟨[], by simp [h2]⟩
  | cons p ps ih =>
    intro acc d h
    rw [appendBlocks] at h
    by_cases hpe : path_equal p target = true
    · rw [if_pos hpe] at h
      exact ih acc d h
    · rw [if_neg hpe] at h
      cases hfs : fs p with
      | none => rw [hfs] at h; cases h
      | some c =>
        rw [hfs] at h
        obtain ⟨B, hB⟩ := ih _ d h
        exact ⟨commentBlock p c ++ B, by rw [hB, List.append_assoc]⟩

theorem create_templating_doc {fs : Str → Option Str} {tp : Str} {op : Option Str}
    {cps : List Str} {ms me : Str} {d : Str} {ln : Nat}
    (hstage : create_edit_temp_file fs tp op (some cps) (some ms) (some me)
      = .ok ⟨some d, ln⟩) :
    (∃ B, d = templatedDoc tp (fs tp) ms me ++ B) ∧ ln = 4 := by
  have hkey : create_edit_temp_file fs tp op (some cps) (some ms) (some me)
      = match appendBlocks fs tp cps (templatedDoc tp (fs tp) ms me) with
        | .error e => .error e
        | .ok doc => .ok ⟨some doc, 4⟩ := rfl
  cases hab : appendBlocks fs tp cps (templatedDoc tp (fs tp) ms me) with
  | error e =>
    rw [hkey, hab] at hstage
    cases hstage
  | ok doc =>
    rw [hkey, hab] at hstage
    simp only [Except.ok.injEq, StagedResult.mk.injEq, Option.some.injEq] at hstage
    obtain ⟨h5, h6⟩ := hstage
    subst h5
    exact ⟨appendBlocks_extends cps _ doc hab, h6.symm⟩

theorem getLast_deleteTrailing_not_ws {s : Str} (h : deleteTrailingWs s ≠ []) :
    ∃ c, (deleteTrailingWs s).getLast? = some c ∧ isWs c = false := by
  have heq : (deleteTrailingWs s).getLast? = (s.reverse.dropWhile isWs).head? := by
    rw [deleteTrailingWs, List.getLast?_eq_head?_reverse, List.reverse_reverse]
  cases hd : s.reverse.dropWhile isWs with
  | nil =>
    exfalso
    apply h
    rw [deleteTrailingWs, hd]
    rfl
  | cons c t =>
    refine ⟨c, by rw [heq, hd]; rfl, ?_⟩
    have := List.head?_dropWhile_not isWs s.reverse
    rw [hd] at this
    exact this

theorem trim_buffer_ne {old ms me : Str} (hc : strstrip (trimRegion old ms me) ≠ []) :
    old.take (trimStartIdx old ms) ++ deleteTrailingWs (trimRegion old ms me)
      ≠ strstrip (trimRegion old ms me) ++ ['\n'] := by
  intro hcon
  have hdne : deleteTrailingWs (trimRegion old ms me) ≠ [] := by
    intro h0
    apply hc
    rw [strstrip, h0]
    rfl
  obtain ⟨c, hlast, hws⟩ := getLast_deleteTrailing_not_ws hdne
  have h1 : (old.take (trimStartIdx old ms)
      ++ deleteTrailingWs (trimRegion old ms me)).getLast? = some c := by
    rw [List.getLast?_append, hlast]
    rfl
  have h2 : (strstrip (trimRegion old ms me) ++ ['\n']).getLast? = some '\n' := by
    exact List.getLast?_concat _
  rw [hcon, h2] at h1
  injection h1 with h3
  rw [← h3] at hws
  simp [isWs] at hws

/-- The byte-for-byte "unchanged" branch of trim_edit_markers is unreachable: after
strstrip has NUL-truncated the buffer in place, the C string being compared ends in a
non-whitespace character while new_contents ends in the appended newline, so streq can
never hold and every non-empty region is rewritten to the temp file. -/
theorem trim_unchanged_unreachable (old ms me : Str) :
    (trim_edit_markers old ms me).ret = 1 → (trim_edit_markers old ms me).wrote = true := by
  intro hret
  rw [trim_edit_markers] at hret ⊢
  by_cases hc : strstrip (trimRegion old ms me) = []
  · rw [if_pos hc] at hret
    cases hret
  · rw [if_neg hc] at hret ⊢
    rw [if_neg (trim_buffer_ne hc)] at hret ⊢

/-- A file whose trim reports an empty region (return 0) and is therefore skipped by
the install loop. -/
def skipsTarget (ms me : Option Str) (g : EditFile) : Bool :=
  match g.temp with
  | some (some tc) =>
    match trim_edit_markers_checked tc ms me with
    | some t => t.ret = 0
    | none => false
  | _ => false

theorem installFiles_cons_skip {renameOk : Str → Bool} {ms me : Option Str}
    {f : EditFile} {rest : List EditFile} {fs : Str → Option Str} {tc : Str} {t : TrimOut}
    (htemp : f.temp = some (some tc))
    (hck : trim_edit_markers_checked tc ms me = some t) (hret : t.ret = 0) :
    installFiles renameOk ms me (f :: rest) fs = installFiles renameOk ms me rest fs := by
  rw [installFiles]
  simp only [htemp, hck]
  rw [if_pos hret]

theorem installFiles_cons_renameFail {renameOk : Str → Bool} {ms me : Option Str}
    {f : EditFile} {rest : List EditFile} {fs : Str → Option Str} {tc : Str} {t : TrimOut}
    (htemp : f.temp = some (some tc))
    (hck : trim_edit_markers_checked tc ms me = some t) (hret : t.ret ≠ 0)
    (hrn : renameOk f.path = false) :
    installFiles renameOk ms me (f :: rest) fs = (fs, .renameFailure f.path) := by
  rw [installFiles]
  simp only [htemp, hck]
  rw [if_neg hret, if_neg (by simp [hrn])]

theorem installFiles_append {renameOk : Str → Bool} {ms me : Option Str} :
    ∀ (pre rest : List EditFile) (fs fs' : Str → Option Str),
      installFiles renameOk ms me pre fs = (fs', .ok) →
      installFiles renameOk ms me (pre ++ rest) fs = installFiles renameOk ms me rest fs' := by
  intro pre
  induction pre with
  | nil =>
    intro rest fs fs' h
    rw [installFiles] at h
    have h1 : fs = fs' := congrArg Prod.fst h
    rw [List.nil_append, h1]
  | cons f pre ih =>
    intro rest fs fs' h
    rw [installFiles] at h
    rw [List.cons_append, installFiles]
    cases htemp : f.temp with
    | none =>
      simp only [htemp] at h
      exact absurd (congrArg Prod.snd h) (by simp)
    | some inner =>
      cases inner with
      | none =>
        simp only [htemp] at h
        exact absurd (congrArg Prod.snd h) (by simp)
      | some tc =>
        simp only [htemp] at h ⊢
        cases hck : trim_edit_markers_checked tc ms me with
        | none =>
          simp only [hck] at h
          exact absurd (congrArg Prod.snd h) (by simp)
        | some t =>
          simp only [hck] at h ⊢
          by_cases hret : t.ret = 0
          · rw [if_pos hret] at h ⊢
            exact ih rest fs fs' h
          · rw [if_neg hret] at h ⊢
            by_cases hrn : renameOk f.path = true
            · rw [if_pos hrn] at h ⊢
              exact ih rest _ fs' h
            · rw [if_neg hrn] at h
              exact absurd (congrArg Prod.snd h) (by simp)

theorem installFiles_untouched {renameOk : Str → Bool} {ms me : Option Str} {p : Str} :
    ∀ (files : List EditFile) (fs : Str → Option Str),
      (∀ g ∈ files, g.path = p → skipsTarget ms me g = true) →
      (installFiles renameOk ms me files fs).1 p = fs p := by
  intro files
  induction files with
  | nil => intro fs h; rfl
  | cons f rest ih =>
    intro fs h
    rw [installFiles]
    cases htemp : f.temp with
    | none => simp only [htemp]
    | some inner =>
      cases inner with
      | none => simp only [htemp]
      | some tc =>
        simp only [htemp]
        cases hck : trim_edit_markers_checked tc ms me with
        | none => simp only [hck]
        | some t =>
          simp only [hck]
          by_cases hret : t.ret = 0
          · rw [if_pos hret]
            exact ih fs (fun g hg => h g (List.mem_cons_of_mem f hg))
          · rw [if_neg hret]
            have hfp : f.path ≠ p := by
              intro hcon
              have hs := h f (List.mem_cons_self f rest) hcon
              simp only [skipsTarget, htemp, hck] at hs
              simp [hret] at hs
            by_cases hrn : renameOk f.path = true
            · rw [if_pos hrn]
              rw [ih _ (fun g hg => h g (List.mem_cons_of_mem f hg))]
              rw [updateFs]
              rw [if_neg (fun hcon => hfp hcon.symm)]
            · rw [if_neg hrn]

theorem stageFiles_skips_staged {fs : Str → Option Str} {ms me : Option Str} :
    ∀ {files staged : List EditFile}, stageFiles fs ms me files = .ok staged →
      ∀ (i : Nat) (f : EditFile), files[i]? = some f → f.temp.isSome →
        staged[i]? = some f := by
  intro files
  induction files with
  | nil =>
    intro staged h i f hget
    simp at hget
  | cons g rest ih =>
    intro staged h i f hget hsome
    rw [stageFiles] at h
    by_cases hg : g.temp.isSome
    · rw [if_pos hg] at h
      cases hrec : stageFiles fs ms me rest with
      | error e => rw [hrec] at h; cases h
      | ok rest' =>
        rw [hrec] at h
        injection h with h2
        subst h2
        cases i with
        | zero =>
          rw [List.getElem?_cons_zero] at hget
          rw [List.getElem?_cons_zero]
          exact hget
        | succ i =>
          rw [List.getElem?_cons_succ] at hget
          rw [List.getElem?_cons_succ]
          exact ih hrec i f hget hsome
    · rw [if_neg hg] at h
      cases hc : create_edit_temp_file fs g.path g.original_path g.comment_paths ms me with
      | error e => rw [hc] at h; cases h
      | ok st =>
        rw [hc] at h
        cases hrec : stageFiles fs ms me rest with
        | error e => rw [hrec] at h; cases h
        | ok rest' =>
          rw [hrec] at h
          injection h with h2
          subst h2
          cases i with
          | zero =>
            rw [List.getElem?_cons_zero] at hget
            injection hget with h3
            rw [← h3] at hsome
            exact absurd hsome hg
          | succ i =>
            rw [List.getElem?_cons_succ] at hget
            rw [List.getElem?_cons_succ]
            exact ih hrec i f hget hsome

/-! ## Claim theorems -/

/-! ## Claim C2 -/

/-- C2 (amended): for content C that is non-empty, already stripped of leading and
trailing whitespace, and free of marker conflicts (both markers non-empty,
newline-free, not occurring in C, and the start marker not occurring in the
generated header line), staging the target in the templating path and trimming
the staged file with the same markers, without any intervening edit, rewrites the
staged file to exactly C followed by one newline (trim returns 1, changed). -/
theorem C2_trim_roundtrip (fs : Str → Option Str) (tp : Str) (op : Option Str)
    (cps : List Str) (C ms me d : Str)
    (hfs : fs tp = some C)
    (hCne : C ≠ []) (hCstrip : strstrip C = C)
    (hmsne : ms ≠ []) (hmene : me ≠ [])
    (hmsnl : '\n' ∉ ms) (hmenl : '\n' ∉ me)
    (hmshdr : occursInB ms (headerFor tp) = false)
    (_hmsC : occursInB ms C = false)
    (hmeC : occursInB me C = false)
    (hstage : create_edit_temp_file fs tp op (some cps) (some ms) (some me)
      = .ok ⟨some d, 4⟩) :
    trim_edit_markers d ms me = ⟨1, true, C ++ ['\n']⟩ := by
  obtain ⟨⟨B, hB⟩, -⟩ := create_templating_doc hstage
  rw [hfs] at hB
  subst hB
  exact trim_templated hCne hCstrip hmsne hmene hmsnl hmenl hmshdr hmeC

def c2wfs : Str → Option Str := fun p => if p = "t".toList then some "x".toList else none

/-- Witness for C2_trim_roundtrip at a concrete staging run. -/
theorem C2_trim_roundtrip_witness :
    trim_edit_markers "### Editing t\n#S#\n\nx\n\n#E#\n".toList "#S#".toList "#E#".toList
      = ⟨1, true, "x\n".toList⟩ :=
  C2_trim_roundtrip c2wfs "t".toList none [] "x".toList "#S#".toList "#E#".toList
    "### Editing t\n#S#\n\nx\n\n#E#\n".toList
    rfl (by decide) (by decide) (by decide) (by decide) (by decide) (by decide)
    (by decide) (by decide) (by decide) rfl

def c2fs : Str → Option Str := fun p => if p = "t".toList then some " x".toList else none

/-- C2 counterexample: with current content " x" (no occurrence of either marker in
it), staging in the templating path and trimming does NOT reproduce the content
plus a newline: the leading space is stripped by strstrip, yielding "x\n". -/
theorem C2_counterexample :
    create_edit_temp_file c2fs "t".toList none (some []) (some "#S#".toList)
        (some "#E#".toList)
      = .ok ⟨some "### Editing t\n#S#\n\n x\n\n#E#\n".toList, 4⟩
    ∧ (trim_edit_markers "### Editing t\n#S#\n\n x\n\n#E#\n".toList "#S#".toList
        "#E#".toList).fileContents = "x\n".toList
    ∧ "x\n".toList ≠ " x".toList ++ ['\n'] :=
  ⟨rfl, by decide, by decide⟩

/-! ## Claim C1 -/

/-- C1 (amended): when renaming a staged temp file onto its target fails, the install
loop reports the failure for that file and returns immediately: targets already
installed (the prefix that completed with .ok) keep their installed state — no
rollback — but the remaining targets are NOT processed. -/
theorem C1_rename_failure_aborts (renameOk : Str → Bool) (s e : Str)
    (pre rest : List EditFile) (f : EditFile) (fs fs' : Str → Option Str)
    (tc : Str)
    (hpre : installFiles renameOk (some s) (some e) pre fs = (fs', .ok))
    (htemp : f.temp = some (some tc))
    (hret : (trim_edit_markers tc s e).ret ≠ 0)
    (hrn : renameOk f.path = false) :
    installFiles renameOk (some s) (some e) (pre ++ f :: rest) fs
      = (fs', .renameFailure f.path) := by
  rw [installFiles_append pre (f :: rest) fs fs' hpre]
  exact installFiles_cons_renameFail htemp rfl hret hrn

def c1renameOk : Str → Bool := fun p => decide (p ≠ "a".toList)

/-- Witness for C1_rename_failure_aborts on a concrete one-file session whose
single rename fails. -/
theorem C1_rename_failure_aborts_witness :
    installFiles c1renameOk (some "#S#".toList) (some "#E#".toList)
      ([] ++ (⟨"a".toList, none, none, some (some "x\n".toList), 0⟩ : EditFile) :: [])
      (fun _ => none)
      = (fun _ => none, .renameFailure "a".toList) :=
  C1_rename_failure_aborts c1renameOk "#S#".toList "#E#".toList [] []
    ⟨"a".toList, none, none, some (some "x\n".toList), 0⟩ (fun _ => none) (fun _ => none)
    "x\n".toList rfl rfl (by decide) (by decide)

def c1file1 : EditFile := ⟨"a".toList, none, none, some (some "x\n".toList), 0⟩
def c1file2 : EditFile := ⟨"b".toList, none, none, some (some "y\n".toList), 0⟩
def c1fs : Str → Option Str := fun _ => none

/-- C1 counterexample: two targets, the first rename fails, the second would
succeed and carries real content; the loop stops at the failure, so target "b"
is never installed (it stays absent), although processing it alone would install
it.  This refutes "the remaining targets in the session continue to be
processed". -/
theorem C1_counterexample :
    (installFiles c1renameOk (some "#S#".toList) (some "#E#".toList)
      [c1file1, c1file2] c1fs).2 = .renameFailure "a".toList
    ∧ (installFiles c1renameOk (some "#S#".toList) (some "#E#".toList)
        [c1file1, c1file2] c1fs).1 "b".toList = none
    ∧ (installFiles c1renameOk (some "#S#".toList) (some "#E#".toList)
        [c1file2] c1fs).1 "b".toList = some "y\n".toList :=
  ⟨by decide, by decide, by decide⟩

/-! ## Claim C5 -/

/-- C5: if the editor left a staged file whose region between the markers strips to
whitespace-only, trim reports 0 (emptied) without writing, the install loop skips
the rename for that entry, and the target file on disk is left untouched by the
whole install loop (provided every entry aimed at that path is likewise skipped,
which holds in particular when paths are unique). -/
theorem C5_emptied_leaves_target (renameOk : Str → Bool) (s e : Str)
    (files : List EditFile) (f : EditFile) (fs : Str → Option Str) (tc : Str)
    (htemp : f.temp = some (some tc))
    (hreg : strstrip (trimRegion tc s e) = [])
    (hall : ∀ g ∈ files, g.path = f.path → skipsTarget (some s) (some e) g = true) :
    trim_edit_markers tc s e = ⟨0, false, tc⟩
    ∧ (∀ rest fs2, installFiles renameOk (some s) (some e) (f :: rest) fs2
        = installFiles renameOk (some s) (some e) rest fs2)
    ∧ (installFiles renameOk (some s) (some e) files fs).1 f.path = fs f.path := by
  have htrim : trim_edit_markers tc s e = ⟨0, false, tc⟩ := by
    rw [trim_edit_markers, if_pos hreg]
  refine ⟨htrim, ?_, ?_⟩
  · intro rest fs2
    exact installFiles_cons_skip htemp rfl (by rw [htrim])
  · exact installFiles_untouched files fs hall

def c5file : EditFile := ⟨"a".toList, none, none, some (some "#S#\n \n#E#\n".toList), 0⟩
def c5fs : Str → Option Str := fun p => if p = "a".toList then some "orig\n".toList else none

/-- Witness for C5_emptied_leaves_target on a concrete emptied edit. -/
theorem C5_emptied_leaves_target_witness :
    trim_edit_markers "#S#\n \n#E#\n".toList "#S#".toList "#E#".toList
      = ⟨0, false, "#S#\n \n#E#\n".toList⟩
    ∧ (∀ rest fs2, installFiles c1renameOk (some "#S#".toList) (some "#E#".toList)
        (c5file :: rest) fs2
        = installFiles c1renameOk (some "#S#".toList) (some "#E#".toList) rest fs2)
    ∧ (installFiles c1renameOk (some "#S#".toList) (some "#E#".toList) [c5file] c5fs).1
        "a".toList = c5fs "a".toList :=
  C5_emptied_leaves_target c1renameOk "#S#".toList "#E#".toList [c5file] c5file c5fs
    "#S#\n \n#E#\n".toList rfl (by decide) (by decide)

/-! ## Claims C3 and C4 -/

/-- C3 (amended): when an explicit editor override resolves non-empty and its execvp
fails (with any errno — the code does not even check), the launcher does not fail:
it falls through and tries the well-known fallback editor names in order, with the
override's tokens still in the argument vector; it is fatal only if a fallback
fails with a non-ENOENT error or the list is exhausted. -/
theorem C3_override_fail_falls_back (exec : Str → ExecOutcome) (env : EditorEnv)
    (files : List LFile) (v a0 : Str) (rest : List Str)
    (hv : resolveEditor env = some v) (hvne : v ≠ [])
    (hargs : buildArgs env files = a0 :: rest)
    (hfail : exec a0 ≠ .ok) :
    run_editor_child exec env files
      = tryFallbacks exec (buildArgs env files) fallbackNames := by
  rw [run_editor_child]
  simp only [hv, hargs]
  have huse : (!v.isEmpty) = true := by
    cases v with
    | nil => exact absurd rfl hvne
    | cons c t => rfl
  rw [huse]
  cases hexec : exec a0 with
  | ok => exact absurd hexec hfail
  | enoent => rfl
  | otherFailure => rfl

def w3exec : Str → ExecOutcome := fun _ => .enoent
def w3env : EditorEnv := ⟨some "ed".toList, none, none⟩

/-- Witness for C3_override_fail_falls_back with a concrete failing override. -/
theorem C3_override_fail_falls_back_witness :
    run_editor_child w3exec w3env [⟨"tmpA".toList, 1⟩]
      = tryFallbacks w3exec (buildArgs w3env [⟨"tmpA".toList, 1⟩]) fallbackNames :=
  C3_override_fail_falls_back w3exec w3env [⟨"tmpA".toList, 1⟩] "ed".toList "ed".toList
    ["tmpA".toList] rfl (by decide) rfl (by decide)

def c3exec : Str → ExecOutcome := fun s => if s = "editor".toList then .ok else .enoent
def c3env : EditorEnv := ⟨some "baded".toList, none, none⟩

/-- C3 counterexample: SYSTEMD_EDITOR is set to "baded", which cannot be executed
(ENOENT); the claim says this is fatal with no fallback attempted, but the code
falls through and successfully execs the well-known fallback "editor" (with the
dead override string still in the argument vector). -/
theorem C3_counterexample :
    run_editor_child c3exec c3env [⟨"tmpA".toList, 1⟩]
      = .execd ["editor".toList, "baded".toList, "tmpA".toList] := by decide

/-- C4 (amended): editor resolution checks SYSTEMD_EDITOR, then EDITOR, then VISUAL,
but the first SET variable wins even when its value is empty: if the
highest-precedence variable is set, the lower-precedence ones are never consulted
(the launcher behaves identically with them cleared), and a set-but-empty value
sends the launcher to the well-known fallback list instead of using a
lower-precedence variable. -/
theorem C4_first_set_wins (exec : Str → ExecOutcome) (env : EditorEnv)
    (files : List LFile) (v : Str) (h : env.systemd_editor = some v) :
    run_editor_child exec env files
      = run_editor_child exec ⟨some v, none, none⟩ files
    ∧ (v = [] → run_editor_child exec env files
        = tryFallbacks exec (buildArgs env files) fallbackNames) := by
  have hres : resolveEditor env = some v := by
    rw [resolveEditor, h]
  constructor
  · have hres2 : resolveEditor ⟨some v, none, none⟩ = some v := rfl
    simp only [run_editor_child, buildArgs, hres, hres2]
  · intro hv
    subst hv
    simp only [run_editor_child, hres]
    rfl

def w4exec : Str → ExecOutcome := fun _ => .otherFailure

/-- Witness for C4_first_set_wins with a concrete set-but-empty SYSTEMD_EDITOR. -/
theorem C4_first_set_wins_witness :
    run_editor_child w4exec ⟨some [], some "myed".toList, none⟩ [⟨"tmpB".toList, 1⟩]
      = run_editor_child w4exec ⟨some [], none, none⟩ [⟨"tmpB".toList, 1⟩]
    ∧ run_editor_child w4exec ⟨some [], some "myed".toList, none⟩ [⟨"tmpB".toList, 1⟩]
      = tryFallbacks w4exec
          (buildArgs ⟨some [], some "myed".toList, none⟩ [⟨"tmpB".toList, 1⟩])
          fallbackNames :=
  ⟨(C4_first_set_wins w4exec ⟨some [], some "myed".toList, none⟩ [⟨"tmpB".toList, 1⟩]
      [] rfl).1,
   (C4_first_set_wins w4exec ⟨some [], some "myed".toList, none⟩ [⟨"tmpB".toList, 1⟩]
      [] rfl).2 rfl⟩

def c4exec : Str → ExecOutcome := fun _ => .ok

/-- C4 counterexample: SYSTEMD_EDITOR is set but empty while EDITOR is "myed" and
every exec succeeds; the claim says "myed" must be used as the editor command
line, but the code treats the empty override as final, ignores EDITOR, and runs
the fallback name "editor" instead. -/
theorem C4_counterexample :
    run_editor_child c4exec ⟨some [], some "myed".toList, none⟩ [⟨"tmpA".toList, 1⟩]
      = .execd ["editor".toList, "tmpA".toList] := by decide

/-! ## Claim C6 -/

/-- C6 (code bug): "if the staged file is not modified at all, the target is not
rewritten" fails.  At content "foo\n" (markers absent from it), the stripped
region plus one newline equals the existing file content byte-for-byte, yet
trim_edit_markers reports 1 with a write — it rewrites the identical bytes — and
in general the unchanged branch can never be taken: streq compares new_contents
against the buffer already NUL-truncated in place by strstrip, whose last byte is
non-whitespace while new_contents ends in the appended newline. -/
theorem C6_noop_check_dead :
    (strstrip (trimRegion "foo\n".toList "#S#".toList "#E#".toList) ++ ['\n']
        = "foo\n".toList
      ∧ trim_edit_markers "foo\n".toList "#S#".toList "#E#".toList
        = ⟨1, true, "foo\n".toList⟩)
    ∧ ∀ (old ms me : Str), (trim_edit_markers old ms me).ret = 1 →
        (trim_edit_markers old ms me).wrote = true :=
  ⟨⟨by decide, by decide⟩, trim_unchanged_unreachable⟩

/-- Witness for C6_noop_check_dead's general component at a concrete input. -/
theorem C6_noop_check_dead_witness :
    (trim_edit_markers "foo\n".toList "#S#".toList "#E#".toList).wrote = true :=
  C6_noop_check_dead.2 "foo\n".toList "#S#".toList "#E#".toList (by decide)

/-! ## Claim C7 -/

/-- C7: adding the same target path twice leaves exactly one entry for that path
(when it was not already present) and the second add returns 0 without any
mutation of the entry array; presence is decided by exact string equality of
paths. -/
theorem C7_add_idempotent (files : List EditFile) (p : Str)
    (op op' : Option Str) (cp cp' : Option (List Str)) :
    edit_files_add (edit_files_add files p op cp).1 p op' cp'
      = ((edit_files_add files p op cp).1, 0)
    ∧ (edit_files_contains files p = false →
        ((edit_files_add files p op cp).1.filter (fun i => i.path = p)).length = 1) := by
  have hcont : edit_files_contains (edit_files_add files p op cp).1 p = true := by
    rw [edit_files_add]
    by_cases hc : edit_files_contains files p = true
    · rw [if_pos hc]
      exact hc
    · rw [if_neg hc]
      rw [edit_files_contains, List.any_append]
      simp [edit_files_contains]
  constructor
  · rw [edit_files_add, if_pos hcont]
  · intro hc
    rw [edit_files_add, if_neg (by rw [hc]; exact Bool.false_ne_true)]
    rw [List.filter_append]
    have h1 : files.filter (fun i => i.path = p) = [] := by
      rw [List.filter_eq_nil_iff]
      intro a ha hpa
      rw [edit_files_contains] at hc
      have := List.any_eq_false.mp hc a ha
      exact this hpa
    rw [h1]
    simp

/-- Witness for C7_add_idempotent on a concrete registry. -/
theorem C7_add_idempotent_witness :
    edit_files_add (edit_files_add [] "a".toList none none).1 "a".toList none none
      = ((edit_files_add [] "a".toList none none).1, 0)
    ∧ ((edit_files_add [] "a".toList none none).1.filter
        (fun i => i.path = "a".toList)).length = 1 :=
  ⟨(C7_add_idempotent [] "a".toList none none none none).1,
   (C7_add_idempotent [] "a".toList none none none none).2 (by decide)⟩

/-! ## Claim C8 -/

/-- C8: the staging loop stages each target at most once: an entry whose temp
filename is already set is passed through the staging phase completely untouched
(same position, same record), so its tempPath can only be the one created by this
run's earlier staging. -/
theorem C8_staging_skips_staged (fs : Str → Option Str) (ms me : Option Str)
    (files staged : List EditFile) (i : Nat) (f : EditFile)
    (hstage : stageFiles fs ms me files = .ok staged)
    (hget : files[i]? = some f) (htemp : f.temp.isSome) :
    staged[i]? = some f :=
  stageFiles_skips_staged hstage i f hget htemp

def c8file : EditFile := ⟨"a".toList, none, none, some (some "z".toList), 3⟩

/-- Witness for C8_staging_skips_staged on a concrete pre-staged entry, which the
staging loop passes through untouched. -/
theorem C8_staging_skips_staged_witness :
    ([c8file] : List EditFile)[0]? = some c8file :=
  C8_staging_skips_staged (fun _ => none) none none [c8file] [c8file] 0 c8file rfl rfl
    (by decide)

/-! ## Claim C9 -/

/-- C9: staging with comment sources (the templating path) always resolves cursor
line 4, and staging through the plain original-file copy path (comment sources
NULL) resolves cursor line 1 — and produces a copy of the original (empty when
the original is absent). -/
theorem C9_cursor_lines (fs : Str → Option Str) (tp orig : Str) (op : Option Str)
    (cps : List Str) (ms me : Option Str) (st : StagedResult)
    (h1 : create_edit_temp_file fs tp op (some cps) ms me = .ok st) :
    st.line = 4
    ∧ create_edit_temp_file fs tp (some orig) none ms me
        = .ok ⟨some ((fs orig).getD []), 1⟩ := by
  refine ⟨?_, rfl⟩
  cases ms with
  | none =>
    cases me with
    | none =>
      have h2 : (Except.error () : Except Unit StagedResult) = .ok st := by
        rw [← h1]
        rfl
      cases h2
    | some e =>
      have h2 : (Except.error () : Except Unit StagedResult) = .ok st := by
        rw [← h1]
        rfl
      cases h2
  | some s =>
    cases me with
    | none =>
      have h2 : (Except.error () : Except Unit StagedResult) = .ok st := by
        rw [← h1]
        rfl
      cases h2
    | some e =>
      have hkey : create_edit_temp_file fs tp op (some cps) (some s) (some e)
          = match appendBlocks fs tp cps (templatedDoc tp (fs tp) s e) with
            | .error err => .error err
            | .ok doc => .ok ⟨some doc, 4⟩ := rfl
      cases hab : appendBlocks fs tp cps (templatedDoc tp (fs tp) s e) with
      | error err =>
        rw [hkey, hab] at h1
        cases h1
      | ok doc =>
        rw [hkey, hab] at h1
        injection h1 with h2
        rw [← h2]

def c9fs : Str → Option Str := fun p => if p = "o".toList then some "zz".toList else none

/-- Witness for C9_cursor_lines at a concrete templating staging run. -/
theorem C9_cursor_lines_witness :
    (StagedResult.mk (some "### Editing t\n#S#\n\n\n\n#E#\n".toList) 4).line = 4
    ∧ create_edit_temp_file c9fs "t".toList (some "o".toList) none
        (some "#S#".toList) (some "#E#".toList)
      = .ok ⟨some ((c9fs "o".toList).getD []), 1⟩ :=
  C9_cursor_lines c9fs "t".toList "o".toList none [] (some "#S#".toList)
    (some "#E#".toList) ⟨some "### Editing t\n#S#\n\n\n\n#E#\n".toList, 4⟩ rfl

/-! ## Claim C10 -/

/-- C10: trim_edit_markers is total only when both markers are present: its assert
admits a NULL/NULL marker pair, but it then passes marker_start straight to
strstr, which has no defined behavior for a NULL needle — modelled as `none`,
with no fallback to treating the whole file as the content region — and the
install loop hands the session's (absent) markers to it for every file, so a
session without markers reaches the undefined call at its first entry. -/
theorem C10_trim_requires_markers (rok : Str → Bool) (f : EditFile)
    (rest : List EditFile) (fs : Str → Option Str) (tc : Str)
    (htemp : f.temp = some (some tc)) :
    (∀ old : Str, trim_edit_markers_checked old none none = none)
    ∧ installFiles rok none none (f :: rest) fs = (fs, .undef) := by
  refine ⟨fun old => rfl, ?_⟩
  rw [installFiles]
  simp only [htemp]
  rfl

def c10file : EditFile := ⟨"a".toList, none, none, some (some "x".toList), 0⟩

/-- Witness for C10_trim_requires_markers on a concrete markerless session. -/
theorem C10_trim_requires_markers_witness :
    trim_edit_markers_checked "x".toList none none = none
    ∧ installFiles c1renameOk none none [c10file] (fun _ => none)
      = (fun _ => none, .undef) :=
  ⟨(C10_trim_requires_markers c1renameOk c10file [] (fun _ => none) "x".toList rfl).1
      "x".toList,
   (C10_trim_requires_markers c1renameOk c10file [] (fun _ => none) "x".toList rfl).2⟩

end EditUtil
